import Mathlib

/-!
Verification development for a Discord TTS voice bot (two near-identical
variants: `src/index.js` and an unnamed sibling).  We shallowly embed the
pure helpers (`cleanText`, the truncation step of `speak`) and the stateful
parts (the speak queue with its single `isSpeaking`-guarded consumer loop,
`ensureJoinedVC`, the `MessageCreate` handler) as executable Lean
definitions, and prove the specified properties about them.

Strings are modelled as lists of characters (the spec speaks of "units");
the JavaScript regex replacements of `cleanText` are embedded as
left-to-right scanning replacements with greedy token matchers, which for
the four backtracking-free patterns used by the code coincides with the
semantics of `String.prototype.replace` with a global regex.
-/

namespace TtsBot

/-- Character class of the JavaScript regex `\s` (and of `String.trim`):
space, tab, line terminators, and the Unicode space separators. -/
def isWsC (c : Char) : Bool :=
  c = ' ' || c = '\t' || c = '\n' || c.val = 11 || c.val = 12 || c = '\r' ||
  c.val = 160 || c.val = 0x1680 || (0x2000 ≤ c.val && c.val ≤ 0x200A) ||
  c.val = 0x2028 || c.val = 0x2029 || c.val = 0x202F || c.val = 0x205F ||
  c.val = 0x3000 || c.val = 0xFEFF

/-- Character class of the JavaScript regex `\d`. -/
def isDigitC (c : Char) : Bool :=
  '0' ≤ c && c ≤ '9'

/-- Character class of the JavaScript regex `\w`. -/
def isWordC (c : Char) : Bool :=
  ('a' ≤ c && c ≤ 'z') || ('A' ≤ c && c ≤ 'Z') || isDigitC c || c = '_'

/-- Greedy matcher for the mention token regex `<@[!&]?\d+>` at the head of
the list; returns the remainder after the match.  The pattern is
backtracking-free (the optional `[!&]` and `\d` classes are disjoint, as are
`\d` and `>`), so greedy matching coincides with the JS regex engine. -/
def tryMention : List Char → Option (List Char)
  | '<' :: '@' :: rest =>
    let rest1 := match rest with
      | c :: cs => if c = '!' || c = '&' then cs else c :: cs
      | [] => []
    let ds := rest1.takeWhile isDigitC
    let rest2 := rest1.dropWhile isDigitC
    if ds.isEmpty then none
    else match rest2 with
      | '>' :: tl => some tl
      | _ => none
  | _ => none

/-- Greedy matcher for the channel-reference token regex `<#\d+>`. -/
def tryChannelRef : List Char → Option (List Char)
  | '<' :: '#' :: rest =>
    let ds := rest.takeWhile isDigitC
    let rest1 := rest.dropWhile isDigitC
    if ds.isEmpty then none
    else match rest1 with
      | '>' :: tl => some tl
      | _ => none
  | _ => none

/-- Greedy matcher for the custom-emoji token regex `<a?:\w+:\d+>`. -/
def tryEmoji : List Char → Option (List Char)
  | '<' :: rest =>
    let body? : Option (List Char) :=
      match rest with
      | 'a' :: ':' :: cs => some cs
      | ':' :: cs => some cs
      | _ => none
    match body? with
    | none => none
    | some cs =>
      let ws := cs.takeWhile isWordC
      let cs1 := cs.dropWhile isWordC
      if ws.isEmpty then none
      else match cs1 with
        | ':' :: cs2 =>
          let ds := cs2.takeWhile isDigitC
          let cs3 := cs2.dropWhile isDigitC
          if ds.isEmpty then none
          else match cs3 with
            | '>' :: tl => some tl
            | _ => none
        | _ => none
  | _ => none

/-- Greedy matcher for the URL regex `https?:\/\/\S+`. -/
def tryUrl : List Char → Option (List Char)
  | 'h' :: 't' :: 't' :: 'p' :: rest =>
    let rest1? : Option (List Char) :=
      match rest with
      | 's' :: ':' :: '/' :: '/' :: cs => some cs
      | ':' :: '/' :: '/' :: cs => some cs
      | _ => none
    match rest1? with
    | none => none
    | some cs =>
      let body := cs.takeWhile (fun c => !isWsC c)
      if body.isEmpty then none
      else some (cs.dropWhile (fun c => !isWsC c))
  | _ => none

/-- Fueled left-to-right scan implementing `str.replace(re, repl)` with a
global regex: at every position try the token matcher; on a match emit the
replacement and resume after the match, otherwise emit the character and
advance by one.  Every matcher consumes at least one character, so fuel
equal to the length of the list never runs out. -/
def replScan (tok : List Char → Option (List Char)) (repl : List Char) :
    Nat → List Char → List Char
  | _, [] => []
  | 0, l => l
  | n + 1, c :: cs =>
    match tok (c :: cs) with
    | some rest => repl ++ replScan tok repl n rest
    | none => c :: replScan tok repl n cs

/-- Global regex replacement over a whole character list. -/
def replaceTok (tok : List Char → Option (List Char)) (repl : List Char)
    (l : List Char) : List Char :=
  replScan tok repl l.length l

/-- Decides whether the token matcher fires at any position of the list. -/
def hasTok (tok : List Char → Option (List Char)) : List Char → Bool
  | [] => false
  | c :: cs => (tok (c :: cs)).isSome || hasTok tok cs

/-- Scanning core of the global replacement `\s+ -> " "`: the flag records
whether we are inside a whitespace run whose single output space has
already been emitted. -/
def collapseAux : Bool → List Char → List Char
  | _, [] => []
  | inWs, c :: cs =>
    if isWsC c then
      if inWs then collapseAux true cs else ' ' :: collapseAux true cs
    else c :: collapseAux false cs

/-- Replacement of every whitespace run by a single space, as in
`.replace(/\s+/g, " ")`. -/
def collapseWs (l : List Char) : List Char :=
  collapseAux false l

/-- Removes a trailing run of whitespace characters. -/
def dropTrailWs : List Char → List Char
  | [] => []
  | c :: cs =>
    match dropTrailWs cs with
    | [] => if isWsC c then [] else [c]
    | d :: ds => c :: d :: ds

/-- JavaScript `String.prototype.trim`: removes leading and trailing
whitespace. -/
def trimWs (l : List Char) : List Char :=
  dropTrailWs (l.dropWhile isWsC)

/-- Replacement text for mention tokens. -/
def mentionRepl : List Char := "someone".data

/-- Replacement text for channel-reference tokens. -/
def channelRepl : List Char := "a channel".data

/-- Replacement text for URL tokens. -/
def urlRepl : List Char := "a link".data

/-- Sanitizer pipeline of `cleanText` from `src/index.js` (identical in the
sibling variant): mention replacement, channel-reference replacement,
custom-emoji removal, URL replacement, whitespace collapse, trim — in that
order. -/
def cleanTextL (l : List Char) : List Char :=
  trimWs (collapseWs
    (replaceTok tryUrl urlRepl
      (replaceTok tryEmoji []
        (replaceTok tryChannelRef channelRepl
          (replaceTok tryMention mentionRepl l)))))

/-- Embedding of `cleanText` over `String` (the `if (!str) return ""` guard
of the source is subsumed: the pipeline maps the empty string to itself). -/
def cleanText (s : String) : String :=
  ⟨cleanTextL s.data⟩

/-- Holds when the list does not start with a whitespace character. -/
def headNonWs : List Char → Bool
  | [] => true
  | c :: _ => !isWsC c

/-- Holds when the list does not end with a whitespace character. -/
def lastNonWs : List Char → Bool
  | [] => true
  | [c] => !isWsC c
  | _ :: c :: cs => lastNonWs (c :: cs)

/-- Normal form produced by whitespace collapsing: every whitespace
character is a plain space and is followed by a non-whitespace character. -/
def goodWs : List Char → Bool
  | [] => true
  | c :: cs => (!isWsC c || (c == ' ' && headNonWs cs)) && goodWs cs

theorem headNonWs_collapseAux_true (l : List Char) :
    headNonWs (collapseAux true l) = true := by
  induction l with
  | nil => rfl
  | cons c cs ih =>
    by_cases h : isWsC c = true
    · simpa [collapseAux, h] using ih
    · simp only [Bool.not_eq_true] at h
      simp [collapseAux, h, headNonWs]

theorem goodWs_collapseAux (l : List Char) :
    ∀ b, goodWs (collapseAux b l) = true := by
  induction l with
  | nil => intro b; rfl
  | cons c cs ih =>
    intro b
    by_cases h : isWsC c = true
    · cases b with
      | true => simpa [collapseAux, h] using ih true
      | false =>
        simp [collapseAux, h, goodWs, headNonWs_collapseAux_true, ih true]
    · simp only [Bool.not_eq_true] at h
      simp [collapseAux, h, goodWs, ih false]

theorem goodWs_tail {c : Char} {cs : List Char}
    (h : goodWs (c :: cs) = true) : goodWs cs = true := by
  simp only [goodWs, Bool.and_eq_true] at h
  exact h.2

theorem goodWs_cons {c : Char} {cs : List Char}
    (h1 : isWsC c = false ∨ (c = ' ' ∧ headNonWs cs = true))
    (h2 : goodWs cs = true) : goodWs (c :: cs) = true := by
  rcases h1 with h1 | ⟨h1, h1'⟩
  · simp [goodWs, h1, h2]
  · simp [goodWs, h1, h1', h2]

theorem dropTrailWs_cons (c : Char) (cs : List Char) :
    dropTrailWs (c :: cs) = match dropTrailWs cs with
      | [] => if isWsC c then [] else [c]
      | d :: ds => c :: d :: ds := rfl

theorem goodWs_head {c : Char} {cs : List Char} (h : goodWs (c :: cs) = true)
    (hc : isWsC c = true) : c = ' ' ∧ headNonWs cs = true := by
  simp only [goodWs, Bool.and_eq_true, Bool.or_eq_true, Bool.not_eq_true'] at h
  rcases h.1 with h1 | h1
  · rw [hc] at h1; simp at h1
  · simp only [Bool.and_eq_true, beq_iff_eq] at h1
    exact h1

theorem goodWs_dropWhileWs (l : List Char) (h : goodWs l = true) :
    goodWs (l.dropWhile isWsC) = true := by
  induction l with
  | nil => simpa using h
  | cons c cs ih =>
    by_cases hc : isWsC c = true
    · simpa [List.dropWhile, hc] using ih (goodWs_tail h)
    · simp only [Bool.not_eq_true] at hc
      simpa [List.dropWhile, hc] using h

theorem headNonWs_dropWhileWs (l : List Char) :
    headNonWs (l.dropWhile isWsC) = true := by
  induction l with
  | nil => rfl
  | cons c cs ih =>
    by_cases hc : isWsC c = true
    · simpa [List.dropWhile, hc] using ih
    · simp only [Bool.not_eq_true] at hc
      simp [List.dropWhile, hc, headNonWs]

theorem headNonWs_dropTrailWs (l : List Char) (h : headNonWs l = true) :
    headNonWs (dropTrailWs l) = true := by
  cases l with
  | nil => rfl
  | cons c cs =>
    simp only [headNonWs, Bool.not_eq_true'] at h
    cases hd : dropTrailWs cs with
    | nil => simp [dropTrailWs, hd, h, headNonWs]
    | cons d ds => simp [dropTrailWs, hd, headNonWs, h]

theorem lastNonWs_dropTrailWs (l : List Char) :
    lastNonWs (dropTrailWs l) = true := by
  induction l with
  | nil => rfl
  | cons c cs ih =>
    cases hd : dropTrailWs cs with
    | nil =>
      by_cases hc : isWsC c = true
      · simp [dropTrailWs, hd, hc, lastNonWs]
      · simp only [Bool.not_eq_true] at hc
        simp [dropTrailWs, hd, hc, lastNonWs]
    | cons d ds =>
      rw [hd] at ih
      simpa [dropTrailWs, hd, lastNonWs] using ih

theorem goodWs_dropTrailWs (l : List Char) (h : goodWs l = true) :
    goodWs (dropTrailWs l) = true := by
  induction l with
  | nil => rfl
  | cons c cs ih =>
    have hcs : goodWs cs = true := goodWs_tail h
    cases hd : dropTrailWs cs with
    | nil =>
      by_cases hc : isWsC c = true
      · simp [dropTrailWs, hd, hc, goodWs]
      · simp only [Bool.not_eq_true] at hc
        simp [dropTrailWs, hd, hc, goodWs]
    | cons d ds =>
      have ihg : goodWs (d :: ds) = true := hd ▸ ih hcs
      rw [dropTrailWs_cons, hd]
      by_cases hc : isWsC c = true
      · obtain ⟨hsp, hhd⟩ := goodWs_head h hc
        have hh : headNonWs (d :: ds) = true :=
          hd ▸ headNonWs_dropTrailWs cs hhd
        exact goodWs_cons (Or.inr ⟨hsp, hh⟩) ihg
      · simp only [Bool.not_eq_true] at hc
        exact goodWs_cons (Or.inl hc) ihg

theorem collapseAux_id (l : List Char) :
    ∀ b, goodWs l = true → (b = true → headNonWs l = true) →
    collapseAux b l = l := by
  induction l with
  | nil => intro b _ _; rfl
  | cons c cs ih =>
    intro b hg hb
    by_cases hc : isWsC c = true
    · obtain ⟨hsp, hhd⟩ := goodWs_head hg hc
      have hbf : b = false := by
        cases b with
        | false => rfl
        | true =>
          have := hb rfl
          simp [headNonWs, hc] at this
      subst hbf
      subst hsp
      have hcs : collapseAux true cs = cs :=
        ih true (goodWs_tail hg) (fun _ => hhd)
      simp [collapseAux, hc, hcs]
    · have hcs : collapseAux false cs = cs :=
        ih false (goodWs_tail hg) (by intro h; cases h)
      simp only [Bool.not_eq_true] at hc
      simp [collapseAux, hc, hcs]

theorem dropWhileWs_id (l : List Char) (h : headNonWs l = true) :
    l.dropWhile isWsC = l := by
  cases l with
  | nil => rfl
  | cons c cs =>
    simp only [headNonWs, Bool.not_eq_true'] at h
    simp [List.dropWhile, h]

theorem dropTrailWs_id (l : List Char) (h : lastNonWs l = true) :
    dropTrailWs l = l := by
  induction l with
  | nil => rfl
  | cons c cs ih =>
    cases cs with
    | nil =>
      simp only [lastNonWs, Bool.not_eq_true'] at h
      simp [dropTrailWs, h]
    | cons d ds =>
      have hds : dropTrailWs (d :: ds) = d :: ds :=
        ih (by simpa [lastNonWs] using h)
      rw [dropTrailWs_cons, hds]

theorem trimWs_collapseWs_fix (l : List Char) :
    trimWs (collapseWs (trimWs (collapseWs l))) = trimWs (collapseWs l) := by
  set t := trimWs (collapseWs l) with ht
  have hg : goodWs t = true := by
    rw [ht]
    exact goodWs_dropTrailWs _ (goodWs_dropWhileWs _ (goodWs_collapseAux _ _))
  have hh : headNonWs t = true := by
    rw [ht]
    exact headNonWs_dropTrailWs _ (headNonWs_dropWhileWs _)
  have hl : lastNonWs t = true := by
    rw [ht]
    exact lastNonWs_dropTrailWs _
  rw [show collapseWs t = t from collapseAux_id t false hg (by intro h; cases h)]
  unfold trimWs
  rw [dropWhileWs_id t hh, dropTrailWs_id t hl]

theorem replScan_id_of_noTok (tok : List Char → Option (List Char))
    (repl : List Char) (l : List Char) (h : hasTok tok l = false) :
    ∀ n, replScan tok repl n l = l := by
  induction l with
  | nil => intro n; cases n <;> rfl
  | cons c cs ih =>
    intro n
    have hexp : hasTok tok (c :: cs) = ((tok (c :: cs)).isSome || hasTok tok cs) :=
      rfl
    cases htok : tok (c :: cs) with
    | some r =>
      exfalso
      rw [hexp, htok] at h
      simp at h
    | none =>
      have hcs : hasTok tok cs = false := by
        rw [hexp, htok] at h
        simpa using h
      cases n with
      | zero => rfl
      | succ m =>
        simp only [replScan, htok]
        rw [ih hcs m]

theorem replaceTok_id_of_noTok (tok : List Char → Option (List Char))
    (repl : List Char) (l : List Char) (h : hasTok tok l = false) :
    replaceTok tok repl l = l :=
  replScan_id_of_noTok tok repl l h _

/-- The sanitized string contains none of the four markup tokens. -/
def tokenFree (t : String) : Bool :=
  !hasTok tryMention t.data && !hasTok tryChannelRef t.data &&
  !hasTok tryEmoji t.data && !hasTok tryUrl t.data

set_option maxHeartbeats 2000000 in
/-- C9 (counterexample): the sanitizer is not idempotent on every string —
removing the inner custom-emoji token of this input splices its remaining
characters into a new emoji token that only a second pass removes. -/
theorem cleanText_not_idempotent :
    cleanText (cleanText "<a<a:x:1>:x:1>") ≠ cleanText "<a<a:x:1>:x:1>" := by
  decide

/-- C9 (amended): the sanitizer is idempotent on every string whose
sanitized form is free of mention, channel-reference, custom-emoji and URL
tokens; the replacement passes then act as the identity and the
collapse-and-trim tail is a closure operator. -/
theorem cleanText_idempotent_of_tokenFree (s : String)
    (h : tokenFree (cleanText s) = true) :
    cleanText (cleanText s) = cleanText s := by
  simp only [tokenFree, Bool.and_eq_true, Bool.not_eq_true'] at h
  obtain ⟨⟨⟨h1, h2⟩, h3⟩, h4⟩ := h
  have hdata : (cleanText s).data = cleanTextL s.data := rfl
  rw [hdata] at h1 h2 h3 h4
  have key : cleanTextL (cleanTextL s.data) = cleanTextL s.data := by
    have expand : cleanTextL (cleanTextL s.data)
        = trimWs (collapseWs (cleanTextL s.data)) := by
      show trimWs (collapseWs
        (replaceTok tryUrl urlRepl
          (replaceTok tryEmoji []
            (replaceTok tryChannelRef channelRepl
              (replaceTok tryMention mentionRepl (cleanTextL s.data))))))
        = trimWs (collapseWs (cleanTextL s.data))
      rw [replaceTok_id_of_noTok _ _ _ h1, replaceTok_id_of_noTok _ _ _ h2,
        replaceTok_id_of_noTok _ _ _ h3, replaceTok_id_of_noTok _ _ _ h4]
    have expand2 : cleanTextL s.data
        = trimWs (collapseWs
            (replaceTok tryUrl urlRepl
              (replaceTok tryEmoji []
                (replaceTok tryChannelRef channelRepl
                  (replaceTok tryMention mentionRepl s.data))))) := rfl
    rw [expand, expand2]
    exact trimWs_collapseWs_fix _
  exact congrArg String.mk key

set_option maxHeartbeats 2000000 in
/-- C9 witness: a concrete string on which the amended idempotence theorem
applies. -/
theorem cleanText_idempotent_of_tokenFree_witness :
    tokenFree (cleanText "hello  world") = true ∧
    cleanText (cleanText "hello  world") = cleanText "hello  world" :=
  ⟨by decide, cleanText_idempotent_of_tokenFree _ (by decide)⟩

/-- Configured maximum spoken length, `Number(process.env.TTS_MAX_LEN || 400)`
at its default. -/
def MAX_LEN : Nat := 400

/-- Truncation step of `speak`:
`cleaned.length > MAX_LEN ? cleaned.slice(0, MAX_LEN) + " …" : cleaned`. -/
def clipText (s : String) : String :=
  if MAX_LEN < s.length then ⟨s.data.take MAX_LEN ++ [' ', '…']⟩ else s

/-- One queued speak request: the clipped text together with the sequence
number of its enqueue (the position in the enqueue order). -/
structure QItem where
  id : Nat
  text : String
deriving DecidableEq, Repr

instance : Inhabited QItem := ⟨⟨0, ""⟩⟩

/-- Suspension point of the consumer loop inside one iteration: awaiting
`ttsToMp3` (the synthesis download), awaiting `demuxProbe`, or awaiting the
player's `Idle` event after `player.play`. -/
inductive CPhase
  | ttsWait
  | probeWait
  | idleWait
deriving DecidableEq, Repr

/-- A suspended consumer-loop task: the item of the current iteration and
the await it is parked on. -/
structure ConsumerState where
  cur : QItem
  phase : CPhase
deriving DecidableEq, Repr

/-- Global state of the speak-queue subsystem.  `queue` and `isSpeaking`
are the module globals of the source; `consumers` is the list of suspended
consumer-loop tasks (a list, not an option, so that the absence of a second
loop is a provable property rather than a modelling artifact); `playing`
lists the audio resources currently attached to the player; `tmpLive` lists
the temporary audio files currently on disk.  `enqueuedTr`, `processedTr`
and `playedTr` are chronological traces of enqueues, finished loop
iterations and completed playbacks. -/
structure SysState where
  queue : List QItem
  isSpeaking : Bool
  consumers : List ConsumerState
  playing : List QItem
  tmpLive : List QItem
  enqueuedTr : List QItem
  processedTr : List QItem
  playedTr : List QItem
  nextId : Nat
deriving DecidableEq, Repr

/-- Initial state: empty queue, not speaking. -/
def initState : SysState :=
  ⟨[], false, [], [], [], [], [], [], 0⟩

/-- Resolution of the await a consumer is parked on: the promise either
fulfils or rejects (for the `Idle` wait only fulfilment exists; a rejection
label there is treated as the event firing). -/
inductive Outcome
  | ok
  | err
deriving DecidableEq, Repr

/-- Synchronous epilogue of one loop iteration, from the `catch`/`finally`
of the `try` to the next test of `while (queue.length)`: delete the current
item's temporary file if one exists (`if (mp3Path) fs.unlink(...)`, modelled
as taking effect at the call), then either exit the loop
(`isSpeaking = false`) or shift the next item and park on its synthesis. -/
def finishIter (s : SysState) (cur : QItem) (rest : List ConsumerState) :
    SysState :=
  let s1 : SysState :=
    { s with tmpLive := s.tmpLive.filter (fun i => i.id ≠ cur.id),
             processedTr := s.processedTr ++ [cur] }
  if s1.queue.isEmpty then
    { s1 with isSpeaking := false, consumers := rest }
  else
    { s1 with queue := s1.queue.tail,
              consumers := ⟨s1.queue.headI, CPhase.ttsWait⟩ :: rest }

/-- Synchronous prologue of `speak(text)` up to its first suspension:
sanitize, skip if empty, clip, push; return at once if `isSpeaking`,
otherwise set the flag, enter the loop, shift the head and park on its
synthesis.  All of this happens in one event-loop turn. -/
def speakStep (s : SysState) (raw : String) : SysState :=
  let cleaned := cleanText raw
  if cleaned = "" then s
  else
    let item : QItem := ⟨s.nextId, clipText cleaned⟩
    let s1 : SysState :=
      { s with queue := s.queue ++ [item],
               enqueuedTr := s.enqueuedTr ++ [item],
               nextId := s.nextId + 1 }
    if s1.isSpeaking then s1
    else
      { s1 with isSpeaking := true,
                queue := s1.queue.tail,
                consumers := s1.consumers ++ [⟨s1.queue.headI, CPhase.ttsWait⟩] }

/-- Resumption of the (first) suspended consumer task when its pending
await resolves, running synchronously to the next suspension or to the end
of the iteration.  Synthesis success creates the temporary file and parks
on the probe; probe success attaches the resource to the player
(`player.play`) and parks on `Idle`; any rejection is caught, logged and
falls through to the `finally`; the `Idle` event completes the playback. -/
def resumeStep (s : SysState) (o : Outcome) : SysState :=
  match s.consumers with
  | [] => s
  | c :: rest =>
    match c.phase, o with
    | CPhase.ttsWait, Outcome.ok =>
      { s with consumers := ⟨c.cur, CPhase.probeWait⟩ :: rest,
               tmpLive := s.tmpLive ++ [c.cur] }
    | CPhase.ttsWait, Outcome.err => finishIter s c.cur rest
    | CPhase.probeWait, Outcome.ok =>
      { s with consumers := ⟨c.cur, CPhase.idleWait⟩ :: rest,
               playing := s.playing ++ [c.cur] }
    | CPhase.probeWait, Outcome.err => finishIter s c.cur rest
    | CPhase.idleWait, _ =>
      finishIter
        { s with playedTr := s.playedTr ++ [c.cur],
                 playing := s.playing.filter (fun i => i.id ≠ c.cur.id) }
        c.cur rest

/-- An event of the cooperative scheduler: a producer calls `speak(raw)`
(from the message handler or the `/say` command), or the pending await of
the consumer loop resolves with the given outcome. -/
inductive Ev
  | speakCall (raw : String)
  | resume (o : Outcome)

/-- Small-step interpreter. -/
def step (s : SysState) : Ev → SysState
  | Ev.speakCall raw => speakStep s raw
  | Ev.resume o => resumeStep s o

/-- State reached from the initial state by a sequence of events. -/
def run (evs : List Ev) : SysState :=
  evs.foldl step initState

/-- Reachable-state invariant of the speak queue: at most one consumer task
exists and `isSpeaking` tracks its existence; the enqueue trace is exactly
the finished iterations followed by the in-flight item followed by the
pending queue (strict FIFO); the played trace is a subtrace of the finished
iterations; at most one resource is attached to the player and at most one
temporary file is live, each belonging to the in-flight item in the
appropriate phase; enqueue sequence numbers are consecutive. -/
def Inv (s : SysState) : Prop :=
  s.playedTr.Sublist s.processedTr ∧
  s.enqueuedTr.map QItem.id = List.range s.nextId ∧
  match s.consumers with
  | [] =>
    s.isSpeaking = false ∧ s.playing = [] ∧ s.tmpLive = [] ∧ s.queue = [] ∧
    s.enqueuedTr = s.processedTr
  | [c] =>
    s.isSpeaking = true ∧
    s.enqueuedTr = s.processedTr ++ c.cur :: s.queue ∧
    (match c.phase with
     | CPhase.ttsWait => s.playing = [] ∧ s.tmpLive = []
     | CPhase.probeWait => s.playing = [] ∧ s.tmpLive = [c.cur]
     | CPhase.idleWait => s.playing = [c.cur] ∧ s.tmpLive = [c.cur])
  | _ :: _ :: _ => False

theorem inv_initState : Inv initState := by
  refine ⟨List.Sublist.refl _, rfl, ?_⟩
  exact ⟨rfl, rfl, rfl, rfl, rfl⟩

theorem inv_speakStep (s : SysState) (raw : String) (h : Inv s) :
    Inv (speakStep s raw) := by
  obtain ⟨hsub, hids, hrest⟩ := h
  by_cases hcl : cleanText raw = ""
  · simpa [speakStep, hcl] using ⟨hsub, hids, hrest⟩
  · obtain ⟨q, isp, cons, pl, tmp, enq, proc, pld, nid⟩ := s
    dsimp only at hsub hids hrest ⊢
    cases cons with
    | nil =>
      obtain ⟨hsp, hpl, htmp, hq, htr⟩ := hrest
      subst hsp; subst hpl; subst htmp; subst hq; subst htr
      have hstep : speakStep ⟨[], false, [], [], [], enq, enq, pld, nid⟩ raw
          = ⟨[], true, [⟨⟨nid, clipText (cleanText raw)⟩, CPhase.ttsWait⟩],
             [], [], enq ++ [⟨nid, clipText (cleanText raw)⟩], enq, pld,
             nid + 1⟩ := by
        simp [speakStep, hcl]
      rw [hstep]
      refine ⟨hsub, ?_, rfl, ?_, rfl, rfl⟩
      · simp [List.range_succ, hids]
      · simp
    | cons c rest =>
      cases rest with
      | nil =>
        obtain ⟨hsp, htr, hph⟩ := hrest
        subst hsp
        have hstep : speakStep ⟨q, true, [c], pl, tmp, enq, proc, pld, nid⟩ raw
            = ⟨q ++ [⟨nid, clipText (cleanText raw)⟩], true, [c], pl, tmp,
               enq ++ [⟨nid, clipText (cleanText raw)⟩], proc, pld,
               nid + 1⟩ := by
          simp [speakStep, hcl]
        rw [hstep]
        refine ⟨hsub, ?_, rfl, ?_, hph⟩
        · simp [List.range_succ, hids]
        · rw [htr]; simp
      | cons c2 rest2 => exact hrest.elim

theorem inv_resumeStep (s : SysState) (o : Outcome) (h : Inv s) :
    Inv (resumeStep s o) := by
  obtain ⟨hsub, hids, hrest⟩ := h
  obtain ⟨q, isp, cons, pl, tmp, enq, proc, pld, nid⟩ := s
  dsimp only at hsub hids hrest ⊢
  cases cons with
  | nil => exact ⟨hsub, hids, hrest⟩
  | cons c rest =>
    cases rest with
    | cons c2 rest2 => exact hrest.elim
    | nil =>
      obtain ⟨hsp, htr, hph⟩ := hrest
      subst hsp
      obtain ⟨cur, phase⟩ := c
      dsimp only at htr hph
      cases phase with
      | ttsWait =>
        obtain ⟨hpl, htmp⟩ := hph
        subst hpl; subst htmp
        cases o with
        | ok =>
          refine ⟨hsub, hids, ?_⟩
          simp [resumeStep, Inv, htr]
        | err =>
          simp only [resumeStep, finishIter, List.filter_nil]
          cases q with
          | nil =>
            refine ⟨hsub.trans (List.sublist_append_left _ _), hids, ?_⟩
            simp_all
          | cons i q' =>
            refine ⟨hsub.trans (List.sublist_append_left _ _), hids, ?_⟩
            simp_all
      | probeWait =>
        obtain ⟨hpl, htmp⟩ := hph
        subst hpl; subst htmp
        cases o with
        | ok =>
          refine ⟨hsub, hids, ?_⟩
          simp [resumeStep, Inv, htr]
        | err =>
          simp only [resumeStep, finishIter]
          cases q with
          | nil =>
            refine ⟨hsub.trans (List.sublist_append_left _ _), hids, ?_⟩
            simp_all
          | cons i q' =>
            refine ⟨hsub.trans (List.sublist_append_left _ _), hids, ?_⟩
            simp_all
      | idleWait =>
        obtain ⟨hpl, htmp⟩ := hph
        subst hpl; subst htmp
        simp only [resumeStep, finishIter]
        cases q with
        | nil =>
          refine ⟨hsub.append (List.Sublist.refl _), hids, ?_⟩
          simp_all
        | cons i q' =>
          refine ⟨hsub.append (List.Sublist.refl _), hids, ?_⟩
          simp_all

theorem inv_step (s : SysState) (e : Ev) (h : Inv s) : Inv (step s e) := by
  cases e with
  | speakCall raw => exact inv_speakStep s raw h
  | resume o => exact inv_resumeStep s o h

theorem inv_run (evs : List Ev) : Inv (run evs) := by
  have main : ∀ (l : List Ev) (s : SysState), Inv s → Inv (l.foldl step s) := by
    intro l
    induction l with
    | nil => intro s hs; exact hs
    | cons e l' ih =>
      intro s hs
      exact ih (step s e) (inv_step s e hs)
  exact main evs initState inv_initState


theorem speakStep_busy (s : SysState) (raw : String) (h : s.isSpeaking = true) :
    (speakStep s raw).consumers = s.consumers ∧
    (speakStep s raw).isSpeaking = true ∧
    (speakStep s raw).processedTr = s.processedTr ∧
    (speakStep s raw).playedTr = s.playedTr ∧
    ∃ extra, (speakStep s raw).queue = s.queue ++ extra := by
  by_cases hcl : cleanText raw = ""
  · refine ⟨?_, ?_, ?_, ?_, [], ?_⟩ <;> simp [speakStep, hcl, h]
  · refine ⟨?_, ?_, ?_, ?_, [⟨s.nextId, clipText (cleanText raw)⟩], ?_⟩ <;>
      simp [speakStep, hcl, h]

/-- C1: in every reachable state at most one consumer loop exists and at
most one audio resource is attached to the player (no two `play`
invocations overlap); `isSpeaking` holds exactly when the single consumer
loop is alive; and a `speak` call arriving while the loop is draining only
appends to the queue — it never spawns a second loop, never plays and never
processes anything itself. -/
theorem at_most_one_consumer (evs : List Ev) (raw : String) :
    (run evs).consumers.length ≤ 1 ∧
    (run evs).playing.length ≤ 1 ∧
    ((run evs).isSpeaking = true ↔ (run evs).consumers.length = 1) ∧
    ((run evs).isSpeaking = true →
      (speakStep (run evs) raw).consumers = (run evs).consumers ∧
      (speakStep (run evs) raw).isSpeaking = true ∧
      (speakStep (run evs) raw).processedTr = (run evs).processedTr ∧
      (speakStep (run evs) raw).playedTr = (run evs).playedTr ∧
      ∃ extra, (speakStep (run evs) raw).queue = (run evs).queue ++ extra) :=
  by
  obtain ⟨hsub, hids, hrest⟩ := inv_run evs
  refine ⟨?_, ?_, ?_, fun h => speakStep_busy _ raw h⟩
  · cases hcons : (run evs).consumers with
    | nil => simp
    | cons c rest =>
      rw [hcons] at hrest
      cases rest with
      | nil => simp
      | cons c2 rest2 => exact hrest.elim
  · cases hcons : (run evs).consumers with
    | nil => rw [hcons] at hrest; rw [hrest.2.1]; simp
    | cons c rest =>
      rw [hcons] at hrest
      cases rest with
      | cons c2 rest2 => exact hrest.elim
      | nil =>
        obtain ⟨-, -, hph⟩ := hrest
        cases hp : c.phase <;> rw [hp] at hph <;> rw [hph.1] <;> simp
  · cases hcons : (run evs).consumers with
    | nil =>
      rw [hcons] at hrest
      rw [hrest.1]
      simp
    | cons c rest =>
      rw [hcons] at hrest
      cases rest with
      | cons c2 rest2 => exact hrest.elim
      | nil => rw [hrest.1]; simp

/-- C1 witness: after one `speak` call the loop is draining, and a second
`speak` call while draining only appends. -/
theorem at_most_one_consumer_witness :
    (run [Ev.speakCall "hi"]).consumers.length ≤ 1 ∧
    (run [Ev.speakCall "hi"]).playing.length ≤ 1 ∧
    ((run [Ev.speakCall "hi"]).isSpeaking = true ↔
      (run [Ev.speakCall "hi"]).consumers.length = 1) ∧
    ((run [Ev.speakCall "hi"]).isSpeaking = true →
      (speakStep (run [Ev.speakCall "hi"]) "yo").consumers
          = (run [Ev.speakCall "hi"]).consumers ∧
      (speakStep (run [Ev.speakCall "hi"]) "yo").isSpeaking = true ∧
      (speakStep (run [Ev.speakCall "hi"]) "yo").processedTr
          = (run [Ev.speakCall "hi"]).processedTr ∧
      (speakStep (run [Ev.speakCall "hi"]) "yo").playedTr
          = (run [Ev.speakCall "hi"]).playedTr ∧
      ∃ extra, (speakStep (run [Ev.speakCall "hi"]) "yo").queue
          = (run [Ev.speakCall "hi"]).queue ++ extra) :=
  at_most_one_consumer [Ev.speakCall "hi"] "yo"

/-- C2: strict FIFO — in every reachable state, under any interleaving of
producers and consumer resumptions, the enqueue trace is exactly the
finished iterations, then the in-flight item, then the pending queue; the
play trace is an order-preserving subtrace of the finished iterations; and
enqueue sequence numbers are consecutive, so no item is reordered,
duplicated or skipped. -/
theorem speak_queue_fifo (evs : List Ev) :
    (run evs).enqueuedTr
      = (run evs).processedTr
          ++ ((run evs).consumers.map ConsumerState.cur) ++ (run evs).queue
    ∧ (run evs).playedTr.Sublist (run evs).processedTr
    ∧ (run evs).enqueuedTr.map QItem.id = List.range (run evs).nextId := by
  obtain ⟨hsub, hids, hrest⟩ := inv_run evs
  refine ⟨?_, hsub, hids⟩
  cases hcons : (run evs).consumers with
  | nil =>
    rw [hcons] at hrest
    obtain ⟨-, -, -, hq, htr⟩ := hrest
    rw [htr, hq]
    simp
  | cons c rest =>
    rw [hcons] at hrest
    cases rest with
    | cons c2 rest2 => exact hrest.elim
    | nil =>
      obtain ⟨-, htr, -⟩ := hrest
      rw [htr]
      simp

/-- C4: in every reachable state at most one temporary audio artifact is
live, and a live artifact always belongs to the item currently in flight,
in a phase after its synthesis; in particular whenever a new item has just
been dequeued (consumer parked on synthesis) no artifact from any earlier
item remains, so no temporary file outlives its own item's playback
attempt. -/
theorem temp_artifact_scoped (evs : List Ev) :
    (run evs).tmpLive.length ≤ 1 ∧
    ((run evs).tmpLive = [] ∨
      ∃ c, (run evs).consumers = [c] ∧ c.phase ≠ CPhase.ttsWait ∧
        (run evs).tmpLive = [c.cur]) := by
  obtain ⟨hsub, hids, hrest⟩ := inv_run evs
  cases hcons : (run evs).consumers with
  | nil =>
    rw [hcons] at hrest
    rw [hrest.2.2.1]
    exact ⟨by simp, Or.inl rfl⟩
  | cons c rest =>
    rw [hcons] at hrest
    cases rest with
    | cons c2 rest2 => exact hrest.elim
    | nil =>
      obtain ⟨-, -, hph⟩ := hrest
      cases hp : c.phase <;> rw [hp] at hph
      · rw [hph.2]; exact ⟨by simp, Or.inl rfl⟩
      · rw [hph.2]
        exact ⟨by simp, Or.inr ⟨c, rfl, by rw [hp]; simp, rfl⟩⟩
      · rw [hph.2]
        exact ⟨by simp, Or.inr ⟨c, rfl, by rw [hp]; simp, rfl⟩⟩

/-- C7: a non-empty sanitized text is enqueued as one item whose text is
the clip of the sanitized text: if the sanitized length exceeds the
configured maximum (default 400) the item is exactly the first `MAX_LEN`
characters followed by the marker `" …"`, otherwise the text unchanged. -/
theorem speak_truncation (s : SysState) (raw : String)
    (h : cleanText raw ≠ "") :
    (speakStep s raw).enqueuedTr
        = s.enqueuedTr ++ [⟨s.nextId, clipText (cleanText raw)⟩]
    ∧ (MAX_LEN < (cleanText raw).length →
        (clipText (cleanText raw)).data
          = (cleanText raw).data.take MAX_LEN ++ [' ', '…'])
    ∧ ((cleanText raw).length ≤ MAX_LEN →
        clipText (cleanText raw) = cleanText raw) := by
  refine ⟨?_, ?_, ?_⟩
  · by_cases hsp : s.isSpeaking = true <;> simp [speakStep, h, hsp]
  · intro hlen
    simp [clipText, hlen]
  · intro hlen
    simp [clipText, Nat.not_lt.mpr hlen]

set_option maxHeartbeats 4000000 in
set_option maxRecDepth 100000 in
/-- C7 witness: a 450-character input is queued as its first 400 characters
followed by the ellipsis marker. -/
theorem speak_truncation_witness :
    cleanText (String.mk (List.replicate 450 'a')) ≠ "" ∧
    ((speakStep initState (String.mk (List.replicate 450 'a'))).enqueuedTr
        = initState.enqueuedTr
          ++ [⟨initState.nextId,
               clipText (cleanText (String.mk (List.replicate 450 'a')))⟩]
    ∧ (MAX_LEN < (cleanText (String.mk (List.replicate 450 'a'))).length →
        (clipText (cleanText (String.mk (List.replicate 450 'a')))).data
          = (cleanText (String.mk (List.replicate 450 'a'))).data.take MAX_LEN
              ++ [' ', '…'])
    ∧ ((cleanText (String.mk (List.replicate 450 'a'))).length ≤ MAX_LEN →
        clipText (cleanText (String.mk (List.replicate 450 'a')))
          = cleanText (String.mk (List.replicate 450 'a')))) :=
  ⟨by decide, speak_truncation initState _ (by decide)⟩

/-- Synchronous prologue of the legacy variant's `speak(text)` (top of the
unnamed source file, lines 143-148): it neither sanitizes nor checks for
emptiness — the text is clipped and pushed unconditionally, and the
consumer loop starts if `isSpeaking` is not set.  Its `/say` handler calls
`speak(cleanText(text))` with no empty guard of its own (only the legacy
message handler checks for empty content before calling). -/
def speakStep_legacy (s : SysState) (raw : String) : SysState :=
  let item : QItem := ⟨s.nextId, clipText raw⟩
  let s1 : SysState :=
    { s with queue := s.queue ++ [item],
             enqueuedTr := s.enqueuedTr ++ [item],
             nextId := s.nextId + 1 }
  if s1.isSpeaking then s1
  else
    { s1 with isSpeaking := true,
              queue := s1.queue.tail,
              consumers := s1.consumers ++ [⟨s1.queue.headI, CPhase.ttsWait⟩] }

set_option maxHeartbeats 2000000 in
/-- C8 (counterexample): in the legacy variant, a `/say` input that
sanitizes to the empty string (the handler passes `cleanText(text)`
straight to `speak`) is not skipped — the empty item is enqueued and the
consumer loop starts on it, because the legacy `speak` has no emptiness
check. -/
theorem speak_empty_enqueued_legacy :
    cleanText "<a:x:1>" = "" ∧
    speakStep_legacy initState (cleanText "<a:x:1>") ≠ initState ∧
    (speakStep_legacy initState (cleanText "<a:x:1>")).enqueuedTr
        = [⟨0, ""⟩] ∧
    (speakStep_legacy initState (cleanText "<a:x:1>")).isSpeaking = true ∧
    (speakStep_legacy initState (cleanText "<a:x:1>")).consumers
        = [⟨⟨0, ""⟩, CPhase.ttsWait⟩] := by
  refine ⟨by decide, by decide, by decide, by decide, by decide⟩

/-- C8 (amended): in the enhanced variant (`src/index.js`, and the second
copy inside the unnamed file), a `speak` call whose text sanitizes to the
empty string does nothing at all: the state is unchanged — nothing is
enqueued, no loop is started, nothing is synthesized or played.  The
legacy variant's `speak` lacks the check and enqueues the empty item. -/
theorem speak_empty_skip (s : SysState) (raw : String)
    (h : cleanText raw = "") : speakStep s raw = s := by
  simp [speakStep, h]

/-- C8 witness: whitespace-only input sanitizes to empty and is skipped. -/
theorem speak_empty_skip_witness :
    cleanText "   " = "" ∧ speakStep initState "   " = initState :=
  ⟨by decide, speak_empty_skip initState "   " (by decide)⟩


/-- Fate of one queued item: its synthesis download rejects, its probe (or
`createAudioResource`/`play`) throws, or it plays to completion. -/
inductive ItemPlan
  | synthFail
  | probeFail
  | playOk
deriving DecidableEq, Repr

/-- Scheduler events resolving the consumer's awaits for one item under the
given plan: a synthesis failure is one rejection; a probe failure is a
fulfilment then a rejection; a successful item is synthesis fulfilment,
probe fulfilment, then the `Idle` event. -/
def planEvs : ItemPlan → List Ev
  | ItemPlan.synthFail => [Ev.resume Outcome.err]
  | ItemPlan.probeFail => [Ev.resume Outcome.ok, Ev.resume Outcome.err]
  | ItemPlan.playOk =>
      [Ev.resume Outcome.ok, Ev.resume Outcome.ok, Ev.resume Outcome.ok]

/-- Scheduler events draining a whole queue, one plan per item. -/
def drainEvs (ps : List ItemPlan) : List Ev :=
  (ps.map planEvs).flatten

/-- The items that reach a completed playback under the given plans, in
order: exactly those whose plan is `playOk`. -/
def playedOf (items : List QItem) (ps : List ItemPlan) : List QItem :=
  (items.zip ps).filterMap (fun x =>
    match x.2 with
    | ItemPlan.playOk => some x.1
    | _ => none)

theorem playedOf_cons (a : QItem) (as : List QItem) (p : ItemPlan)
    (ps : List ItemPlan) :
    playedOf (a :: as) (p :: ps)
      = (match p with | ItemPlan.playOk => [a] | _ => [])
          ++ playedOf as ps := by
  cases p <;> rfl

theorem resume_one_item (q : List QItem) (cur : QItem) (p : ItemPlan)
    (isp : Bool) (enq proc pld : List QItem) (nid : Nat) :
    (planEvs p).foldl step
        ⟨q, isp, [⟨cur, CPhase.ttsWait⟩], [], [], enq, proc, pld, nid⟩
      = (match q with
         | [] =>
           ⟨[], false, [], [], [], enq, proc ++ [cur],
            pld ++ (match p with | ItemPlan.playOk => [cur] | _ => []), nid⟩
         | i :: q' =>
           ⟨q', isp, [⟨i, CPhase.ttsWait⟩], [], [], enq, proc ++ [cur],
            pld ++ (match p with | ItemPlan.playOk => [cur] | _ => []),
            nid⟩) := by
  cases p <;> cases q <;>
    simp [planEvs, step, resumeStep, finishIter, List.headI]

theorem drain_all (ps : List ItemPlan) :
    ∀ (q : List QItem) (cur : QItem) (isp : Bool)
      (enq proc pld : List QItem) (nid : Nat),
      ps.length = q.length + 1 →
      (drainEvs ps).foldl step
          ⟨q, isp, [⟨cur, CPhase.ttsWait⟩], [], [], enq, proc, pld, nid⟩
        = ⟨[], false, [], [], [], enq, proc ++ cur :: q,
           pld ++ playedOf (cur :: q) ps, nid⟩ := by
  induction ps with
  | nil =>
    intro q cur isp enq proc pld nid hlen
    simp at hlen
  | cons p ps' ih =>
    intro q cur isp enq proc pld nid hlen
    have hjoin : drainEvs (p :: ps') = planEvs p ++ drainEvs ps' := by
      simp [drainEvs]
    rw [hjoin, List.foldl_append, resume_one_item]
    cases q with
    | nil =>
      cases ps' with
      | nil => cases p <;> simp [drainEvs, playedOf]
      | cons p2 ps2 => simp at hlen
    | cons i q' =>
      have hlen' : ps'.length = q'.length + 1 := by simpa using hlen
      dsimp only
      rw [ih q' i isp enq (proc ++ [cur]) _ nid hlen', playedOf_cons]
      cases p <;> simp

theorem drain_reachable (s : SysState) (hInv : Inv s) (ps : List ItemPlan)
    (c : ConsumerState) (h1 : s.consumers = [c])
    (h2 : c.phase = CPhase.ttsWait)
    (h3 : ps.length = s.queue.length + 1) :
    (drainEvs ps).foldl step s
      = { s with queue := [], isSpeaking := false, consumers := [],
                 processedTr := s.processedTr ++ c.cur :: s.queue,
                 playedTr := s.playedTr ++ playedOf (c.cur :: s.queue) ps } := by
  obtain ⟨hsub, hids, hrest⟩ := hInv
  obtain ⟨q, isp, cons, pl, tmp, enq, proc, pld, nid⟩ := s
  dsimp only at h1 h3 hrest ⊢
  subst h1
  obtain ⟨hsp, htr, hph⟩ := hrest
  subst hsp
  obtain ⟨cur, phase⟩ := c
  dsimp only at h2 hph ⊢
  subst h2
  obtain ⟨hpl, htmp⟩ := hph
  subst hpl; subst htmp
  exact drain_all ps q cur true enq proc pld nid h3

/-- C3: error isolation — from any reachable state in which the consumer
loop has just dequeued an item, whatever the fate of each pending item
(synthesis rejection, probe/playback throw, or successful playback), the
loop processes the in-flight item and then every queued item, in order,
ends with an empty queue and `isSpeaking = false`, and the play trace
gains exactly the items that succeeded: a failing item produces no audio
and neither aborts the loop nor drops any earlier or later item. -/
theorem error_isolated (evs : List Ev) (ps : List ItemPlan)
    (c : ConsumerState) (h1 : (run evs).consumers = [c])
    (h2 : c.phase = CPhase.ttsWait)
    (h3 : ps.length = (run evs).queue.length + 1) :
    run (evs ++ drainEvs ps)
      = { run evs with queue := [], isSpeaking := false, consumers := [],
                       processedTr := (run evs).processedTr
                         ++ c.cur :: (run evs).queue,
                       playedTr := (run evs).playedTr
                         ++ playedOf (c.cur :: (run evs).queue) ps } := by
  have hfold : run (evs ++ drainEvs ps)
      = (drainEvs ps).foldl step (run evs) := by
    simp [run, List.foldl_append]
  rw [hfold]
  exact drain_reachable (run evs) (inv_run evs) ps c h1 h2 h3

set_option maxHeartbeats 4000000 in
set_option maxRecDepth 100000 in
/-- C3 witness: items A, B, C are enqueued; B's synthesis fails; A, B, C
are still all processed in order and the play trace is exactly A then C. -/
theorem error_isolated_witness :
    (run [Ev.speakCall "aa", Ev.speakCall "bb", Ev.speakCall "cc"]).consumers
        = [⟨⟨0, "aa"⟩, CPhase.ttsWait⟩] ∧
    (⟨⟨0, "aa"⟩, CPhase.ttsWait⟩ : ConsumerState).phase = CPhase.ttsWait ∧
    ([ItemPlan.playOk, ItemPlan.synthFail, ItemPlan.playOk] : List ItemPlan).length
        = (run [Ev.speakCall "aa", Ev.speakCall "bb", Ev.speakCall "cc"]).queue.length + 1 ∧
    run ([Ev.speakCall "aa", Ev.speakCall "bb", Ev.speakCall "cc"]
          ++ drainEvs [ItemPlan.playOk, ItemPlan.synthFail, ItemPlan.playOk])
      = { run [Ev.speakCall "aa", Ev.speakCall "bb", Ev.speakCall "cc"] with
          queue := [], isSpeaking := false, consumers := [],
          processedTr :=
            (run [Ev.speakCall "aa", Ev.speakCall "bb", Ev.speakCall "cc"]).processedTr
              ++ (⟨⟨0, "aa"⟩, CPhase.ttsWait⟩ : ConsumerState).cur
                :: (run [Ev.speakCall "aa", Ev.speakCall "bb", Ev.speakCall "cc"]).queue,
          playedTr :=
            (run [Ev.speakCall "aa", Ev.speakCall "bb", Ev.speakCall "cc"]).playedTr
              ++ playedOf
                  ((⟨⟨0, "aa"⟩, CPhase.ttsWait⟩ : ConsumerState).cur
                    :: (run [Ev.speakCall "aa", Ev.speakCall "bb", Ev.speakCall "cc"]).queue)
                  [ItemPlan.playOk, ItemPlan.synthFail, ItemPlan.playOk] } :=
  ⟨by decide, rfl, by decide,
    error_isolated [Ev.speakCall "aa", Ev.speakCall "bb", Ev.speakCall "cc"]
      [ItemPlan.playOk, ItemPlan.synthFail, ItemPlan.playOk]
      ⟨⟨0, "aa"⟩, CPhase.ttsWait⟩ (by decide) rfl (by decide)⟩


/-- A voice connection handle: the channel it joins and a creation stamp
distinguishing it from every other connection the process ever makes. -/
structure Conn where
  id : Nat
  channelId : String
deriving DecidableEq, Repr

/-- Observable connection-lifecycle events issued to the voice library:
`joinVoiceChannel` and `connection.destroy()`. -/
inductive ConnEv
  | create (c : Conn)
  | destroy (c : Conn)
deriving DecidableEq, Repr

/-- State of the voice-session manager: the module-global `connection`
variable, a stamp supply, and the chronological trace of lifecycle events
issued so far. -/
structure VoiceState where
  connection : Option Conn
  nextConnId : Nat
  trace : List ConnEv
deriving DecidableEq, Repr

/-- Startup state: `let connection = null`. -/
def vinit : VoiceState := ⟨none, 0, []⟩

/-- Result of awaiting `entersState(connection, Ready, 15000)`. -/
inductive JoinOutcome
  | ready
  | failTimeout
deriving DecidableEq, Repr

/-- Effect of one lifecycle event on the set of live connections. -/
def liveStep (l : List Conn) : ConnEv → List Conn
  | ConnEv.create c => l ++ [c]
  | ConnEv.destroy c => l.filter (fun d => d.id ≠ c.id)

/-- Holds when, starting from live set `l`, at every point of the event
trace at most one connection is alive. -/
def AtMostOne : List Conn → List ConnEv → Prop
  | l, [] => l.length ≤ 1
  | l, e :: t => l.length ≤ 1 ∧ AtMostOne (liveStep l e) t

/-- Shared tail of `ensureJoinedVC` in both variants, from
`joinVoiceChannel` on: create the new connection, then on `Ready` return
it, and on a timeout/error destroy it, reset the global and return null. -/
def joinPhase (st : VoiceState) (vcId : String) (jo : JoinOutcome) :
    VoiceState × Option Conn :=
  let c : Conn := ⟨st.nextConnId, vcId⟩
  let st1 : VoiceState :=
    { st with connection := some c, nextConnId := st.nextConnId + 1,
              trace := st.trace ++ [ConnEv.create c] }
  match jo with
  | JoinOutcome.ready => (st1, some c)
  | JoinOutcome.failTimeout =>
    ({ st1 with connection := none,
                trace := st1.trace ++ [ConnEv.destroy c] }, none)

/-- Embedding of `ensureJoinedVC` from `src/index.js` (and of the
second, identical variant inside the unnamed file).  `vc` is the resolved
target voice channel (`none` when resolution failed or the member is in no
voice channel, in which case the function returns null without touching
the connection).  If the current connection already targets the channel it
is returned unchanged; otherwise any old connection is destroyed first and
the join phase runs. -/
def ensureJoinedVC (st : VoiceState) (vc : Option String)
    (jo : JoinOutcome) : VoiceState × Option Conn :=
  match vc with
  | none => (st, none)
  | some vcId =>
    match st.connection with
    | some c =>
      if c.channelId = vcId then (st, some c)
      else
        joinPhase { st with connection := none,
                            trace := st.trace ++ [ConnEv.destroy c] } vcId jo
    | none => joinPhase st vcId jo

/-- Embedding of `ensureJoinedVC` from the legacy variant at the top of
the unnamed file: identical except that on a rejoin to a different channel
the old connection is merely overwritten by the new `joinVoiceChannel`
result — no `destroy()` is issued for it. -/
def ensureJoinedVC_legacy (st : VoiceState) (vc : Option String)
    (jo : JoinOutcome) : VoiceState × Option Conn :=
  match vc with
  | none => (st, none)
  | some vcId =>
    match st.connection with
    | some c =>
      if c.channelId = vcId then (st, some c)
      else joinPhase st vcId jo
    | none => joinPhase st vcId jo

/-- Events mutating the voice-session state: an `ensureJoinedVC` call (its
channel resolution and join outcome) or the `/leave` handler. -/
inductive VEv
  | ensure (vc : Option String) (jo : JoinOutcome)
  | leave

/-- One sequential call against the enhanced variant. -/
def vstep (st : VoiceState) : VEv → VoiceState
  | VEv.ensure vc jo => (ensureJoinedVC st vc jo).1
  | VEv.leave =>
    match st.connection with
    | some c => { st with connection := none,
                          trace := st.trace ++ [ConnEv.destroy c] }
    | none => st

/-- Voice state reached by a sequence of sequential calls from startup. -/
def vrun (evs : List VEv) : VoiceState :=
  evs.foldl vstep vinit

/-- Reachability invariant: at every point of the history at most one
connection is alive, and the live set is exactly the current value of the
`connection` global. -/
def VInv (st : VoiceState) : Prop :=
  AtMostOne [] st.trace ∧ st.trace.foldl liveStep [] = st.connection.toList

theorem atMostOne_length {l : List Conn} {t : List ConnEv}
    (h : AtMostOne l t) : l.length ≤ 1 := by
  cases t with
  | nil => exact h
  | cons e t' => exact h.1

theorem atMostOne_append (t t' : List ConnEv) :
    ∀ l, AtMostOne l (t ++ t') ↔
      (AtMostOne l t ∧ AtMostOne (t.foldl liveStep l) t') := by
  induction t with
  | nil =>
    intro l
    constructor
    · intro h; exact ⟨atMostOne_length h, h⟩
    · intro h; exact h.2
  | cons e t ih =>
    intro l
    constructor
    · intro h
      obtain ⟨h1, h2⟩ := h
      have h2' := (ih (liveStep l e)).mp h2
      exact ⟨⟨h1, h2'.1⟩, h2'.2⟩
    · intro h
      obtain ⟨⟨h1, h2⟩, h3⟩ := h
      exact ⟨h1, (ih (liveStep l e)).mpr ⟨h2, h3⟩⟩

theorem vinv_vinit : VInv vinit :=
  ⟨Nat.zero_le 1, rfl⟩

theorem vinv_vstep (st : VoiceState) (e : VEv) (h : VInv st) :
    VInv (vstep st e) := by
  obtain ⟨hone, hlive⟩ := h
  obtain ⟨conn, nid, tr⟩ := st
  dsimp only at hone hlive ⊢
  cases e with
  | leave =>
    cases conn with
    | none => exact ⟨hone, hlive⟩
    | some c =>
      have hstep : vstep ⟨some c, nid, tr⟩ VEv.leave
          = ⟨none, nid, tr ++ [ConnEv.destroy c]⟩ := rfl
      rw [hstep]
      refine ⟨?_, ?_⟩
      · rw [atMostOne_append]
        refine ⟨hone, ?_⟩
        rw [hlive]
        exact ⟨by simp, by simp [AtMostOne, liveStep]⟩
      · rw [List.foldl_append, hlive]
        simp [liveStep]
  | ensure vc jo =>
    cases vc with
    | none => exact ⟨hone, hlive⟩
    | some vcId =>
      cases conn with
      | some c =>
        by_cases hch : c.channelId = vcId
        · have hstep : vstep ⟨some c, nid, tr⟩
              (VEv.ensure (some vcId) jo) = ⟨some c, nid, tr⟩ := by
            simp [vstep, ensureJoinedVC, hch]
          rw [hstep]
          exact ⟨hone, hlive⟩
        · cases jo with
          | ready =>
            have hstep : vstep ⟨some c, nid, tr⟩
                (VEv.ensure (some vcId) JoinOutcome.ready)
                = ⟨some ⟨nid, vcId⟩, nid + 1,
                   tr ++ [ConnEv.destroy c, ConnEv.create ⟨nid, vcId⟩]⟩ := by
              simp [vstep, ensureJoinedVC, hch, joinPhase]
            rw [hstep]
            refine ⟨?_, ?_⟩
            · rw [atMostOne_append]
              refine ⟨hone, ?_⟩
              rw [hlive]
              refine ⟨by simp, ?_, ?_⟩
              · simp [liveStep]
              · simp [liveStep, AtMostOne]
            · rw [List.foldl_append, hlive]
              simp [liveStep]
          | failTimeout =>
            have hstep : vstep ⟨some c, nid, tr⟩
                (VEv.ensure (some vcId) JoinOutcome.failTimeout)
                = ⟨none, nid + 1,
                   tr ++ [ConnEv.destroy c, ConnEv.create ⟨nid, vcId⟩,
                          ConnEv.destroy ⟨nid, vcId⟩]⟩ := by
              simp [vstep, ensureJoinedVC, hch, joinPhase]
            rw [hstep]
            refine ⟨?_, ?_⟩
            · rw [atMostOne_append]
              refine ⟨hone, ?_⟩
              rw [hlive]
              refine ⟨by simp, ?_, ?_, ?_⟩
              · simp [liveStep]
              · simp [liveStep, AtMostOne]
              · simp [liveStep, AtMostOne]
            · rw [List.foldl_append, hlive]
              simp [liveStep]
      | none =>
        cases jo with
        | ready =>
          have hstep : vstep ⟨none, nid, tr⟩
              (VEv.ensure (some vcId) JoinOutcome.ready)
              = ⟨some ⟨nid, vcId⟩, nid + 1,
                 tr ++ [ConnEv.create ⟨nid, vcId⟩]⟩ := by
            simp [vstep, ensureJoinedVC, joinPhase]
          rw [hstep]
          refine ⟨?_, ?_⟩
          · rw [atMostOne_append]
            refine ⟨hone, ?_⟩
            rw [hlive]
            exact ⟨by simp, by simp [AtMostOne, liveStep]⟩
          · rw [List.foldl_append, hlive]
            simp [liveStep]
        | failTimeout =>
          have hstep : vstep ⟨none, nid, tr⟩
              (VEv.ensure (some vcId) JoinOutcome.failTimeout)
              = ⟨none, nid + 1,
                 tr ++ [ConnEv.create ⟨nid, vcId⟩,
                        ConnEv.destroy ⟨nid, vcId⟩]⟩ := by
            simp [vstep, ensureJoinedVC, joinPhase]
          rw [hstep]
          refine ⟨?_, ?_⟩
          · rw [atMostOne_append]
            refine ⟨hone, ?_⟩
            rw [hlive]
            refine ⟨by simp, ?_, ?_⟩
            · simp [liveStep, AtMostOne]
            · simp [liveStep, AtMostOne]
          · rw [List.foldl_append, hlive]
            simp [liveStep]

theorem vinv_vrun (evs : List VEv) : VInv (vrun evs) := by
  have main : ∀ (l : List VEv) (st : VoiceState), VInv st →
      VInv (l.foldl vstep st) := by
    intro l
    induction l with
    | nil => intro st hs; exact hs
    | cons e l' ih => intro st hs; exact ih (vstep st e) (vinv_vstep st e hs)
  exact main evs vinit vinv_vinit


/-- C5 (counterexample): in the legacy variant of `ensureJoinedVC` (top of
the unnamed source file), joining channel X and then channel Y issues no
`destroy()` for the X connection at all — the trace holds two creations and
no destruction, so by the lifecycle accounting of the spec's abstract
client interface both connections are alive after the second call. -/
theorem ensure_rejoin_legacy_no_destroy :
    ((ensureJoinedVC_legacy
        (ensureJoinedVC_legacy vinit (some "X") JoinOutcome.ready).1
        (some "Y") JoinOutcome.ready).1.trace
      = [ConnEv.create ⟨0, "X"⟩, ConnEv.create ⟨1, "Y"⟩]) ∧
    ((ensureJoinedVC_legacy
        (ensureJoinedVC_legacy vinit (some "X") JoinOutcome.ready).1
        (some "Y") JoinOutcome.ready).1.trace.foldl liveStep []).length
      = 2 := by
  constructor <;> decide

/-- C5 (amended): in the enhanced variant (`src/index.js`, and the second
copy inside the unnamed file), calling `ensureJoinedVC` for a different
channel Y while connected to X issues `destroy(X)` strictly before
`joinVoiceChannel(Y)` (and on a failed join also destroys the fresh
connection), and along the entire call history at most one connection is
alive at any instant. -/
theorem ensure_rejoin_destroys_before_create (evs : List VEv)
    (jo : JoinOutcome) (c : Conn) (y : String)
    (h1 : (vrun evs).connection = some c) (h2 : ¬ c.channelId = y) :
    (ensureJoinedVC (vrun evs) (some y) jo).1.trace
      = (vrun evs).trace
          ++ ConnEv.destroy c
            :: ConnEv.create ⟨(vrun evs).nextConnId, y⟩
            :: (match jo with
                | JoinOutcome.ready => []
                | JoinOutcome.failTimeout =>
                    [ConnEv.destroy ⟨(vrun evs).nextConnId, y⟩])
    ∧ AtMostOne [] (ensureJoinedVC (vrun evs) (some y) jo).1.trace := by
  constructor
  · cases jo with
    | ready => simp [ensureJoinedVC, h1, h2, joinPhase]
    | failTimeout => simp [ensureJoinedVC, h1, h2, joinPhase]
  · exact (vinv_vstep (vrun evs) (VEv.ensure (some y) jo) (vinv_vrun evs)).1

/-- C5 witness: connected to X after one call, a rejoin to Y destroys X,
then creates the Y connection, with at most one connection alive
throughout. -/
theorem ensure_rejoin_destroys_before_create_witness :
    (vrun [VEv.ensure (some "X") JoinOutcome.ready]).connection
        = some ⟨0, "X"⟩ ∧
    ¬ (⟨0, "X"⟩ : Conn).channelId = "Y" ∧
    ((ensureJoinedVC (vrun [VEv.ensure (some "X") JoinOutcome.ready])
          (some "Y") JoinOutcome.ready).1.trace
        = (vrun [VEv.ensure (some "X") JoinOutcome.ready]).trace
            ++ ConnEv.destroy ⟨0, "X"⟩
              :: ConnEv.create
                  ⟨(vrun [VEv.ensure (some "X") JoinOutcome.ready]).nextConnId,
                   "Y"⟩
              :: (match JoinOutcome.ready with
                  | JoinOutcome.ready => []
                  | JoinOutcome.failTimeout =>
                      [ConnEv.destroy
                        ⟨(vrun [VEv.ensure (some "X") JoinOutcome.ready]).nextConnId,
                         "Y"⟩])
      ∧ AtMostOne []
          (ensureJoinedVC (vrun [VEv.ensure (some "X") JoinOutcome.ready])
            (some "Y") JoinOutcome.ready).1.trace) :=
  ⟨by decide, by decide,
    ensure_rejoin_destroys_before_create
      [VEv.ensure (some "X") JoinOutcome.ready] JoinOutcome.ready
      ⟨0, "X"⟩ "Y" (by decide) (by decide)⟩

/-- C6: `ensureJoinedVC` is idempotent for the same target channel, in both
variants: with a connection to the target already present it returns that
very connection object and the whole voice state — connection variable,
stamp supply and lifecycle trace — unchanged, so no second join and no
destroy is issued. -/
theorem ensure_join_idempotent (st : VoiceState) (c : Conn)
    (jo : JoinOutcome) (h : st.connection = some c) :
    ensureJoinedVC st (some c.channelId) jo = (st, some c) ∧
    ensureJoinedVC_legacy st (some c.channelId) jo = (st, some c) := by
  constructor <;> simp [ensureJoinedVC, ensureJoinedVC_legacy, h]

/-- C6 witness: a second join to the already-joined channel X returns the
existing connection and changes nothing. -/
theorem ensure_join_idempotent_witness :
    (⟨some ⟨0, "X"⟩, 1, [ConnEv.create ⟨0, "X"⟩]⟩ : VoiceState).connection
        = some ⟨0, "X"⟩ ∧
    (ensureJoinedVC ⟨some ⟨0, "X"⟩, 1, [ConnEv.create ⟨0, "X"⟩]⟩
          (some (⟨0, "X"⟩ : Conn).channelId) JoinOutcome.ready
        = (⟨some ⟨0, "X"⟩, 1, [ConnEv.create ⟨0, "X"⟩]⟩, some ⟨0, "X"⟩) ∧
      ensureJoinedVC_legacy ⟨some ⟨0, "X"⟩, 1, [ConnEv.create ⟨0, "X"⟩]⟩
          (some (⟨0, "X"⟩ : Conn).channelId) JoinOutcome.ready
        = (⟨some ⟨0, "X"⟩, 1, [ConnEv.create ⟨0, "X"⟩]⟩, some ⟨0, "X"⟩)) :=
  ⟨rfl, ensure_join_idempotent _ ⟨0, "X"⟩ JoinOutcome.ready rfl⟩

/-- Channel kinds distinguished by the `MessageCreate` handler. -/
inductive ChannelT
  | guildText
  | other
deriving DecidableEq, Repr

/-- The fields of an inbound chat message that the handler reads. -/
structure Message where
  authorBot : Bool
  authorUsername : String
  memberDisplayName : Option String
  channelType : ChannelT
  channelId : String
  content : String
deriving Repr

/-- The guard `/^[!\/]/.test(message.content)`. -/
def startsWithCmd (s : String) : Bool :=
  match s.data with
  | [] => false
  | c :: _ => c = '!' || c = '/'

/-- Embedding of the `MessageCreate` handler of `src/index.js` (the legacy
variant is identical except for the spoken-line shape): returns the text
passed to `speak`, or `none` when the message is dropped.  Guards run in
source order: bot author, channel type, watched channel, command pattern,
voice connection availability, empty sanitized content. -/
def onMessageCreate (speakPfx targetTextChannelId : String)
    (connected : Bool) (m : Message) : Option String :=
  if m.authorBot then none
  else if m.channelType ≠ ChannelT.guildText then none
  else if m.channelId ≠ targetTextChannelId then none
  else if startsWithCmd m.content then none
  else if ¬ connected then none
  else
    let display := m.memberDisplayName.getD m.authorUsername
    let content := cleanText m.content
    if content = "" then none
    else some (speakPfx ++ display ++ " said: " ++ content)

/-- C10: a message authored by a bot account is dropped by the very first
guard of the `MessageCreate` handler, whatever its channel, content,
display name or the connection state — it is never sanitized, never
enqueued, never spoken. -/
theorem bot_messages_ignored (speakPfx tgt : String) (connected : Bool)
    (m : Message) (h : m.authorBot = true) :
    onMessageCreate speakPfx tgt connected m = none := by
  simp [onMessageCreate, h]

/-- C10 witness: a bot-authored message in the watched guild-text channel
with speakable content is still dropped. -/
theorem bot_messages_ignored_witness :
    (Message.mk true "u" none ChannelT.guildText "123" "hello").authorBot
        = true ∧
    onMessageCreate "" "123" true
        (Message.mk true "u" none ChannelT.guildText "123" "hello") = none :=
  ⟨rfl, bot_messages_ignored "" "123" true _ rfl⟩

end TtsBot
